import Mathlib

/-! Shallow embedding of the ingestion/retrieval core of the smart-study-notes
backend: `app/services/rag_engine.py` and `app/database/vector_db.py`, with the
chunking configuration of `app/config.py`.

The vector store state is an optional collection (`none` until
`initialize_vector_db` has run), a collection is the list of its entries in
insertion order, and errors are the typed failures the code can raise.
Collaborators that are not part of the repository (the chromadb collection
operations and the langchain text splitter's constructor check) are modelled
from the spec where noted; the embedding distance and the text-splitting
algorithm are abstracted as function parameters. -/

set_option autoImplicit false

namespace Rag

/-- Per-chunk metadata written by `ingest_document` (rag_engine.py lines 42-48):
exactly the keys `document_id`, `user_id`, `filename`, `file_type`,
`chunk_index`. -/
structure Metadata where
  document_id : String
  user_id : String
  filename : String
  file_type : String
  chunk_index : Nat
  deriving DecidableEq

/-- One entry of the chromadb collection: id, stored document text, metadata. -/
structure Entry where
  id : String
  text : String
  metadata : Metadata
  deriving DecidableEq

/-- The single `study_documents` collection, as the list of its entries in
insertion order. -/
abbrev Collection := List Entry

/-- `vector_db.VectorDB` holds an optional collection handle; `none` means the
store was never initialized. -/
abbrev Store := Option Collection

/-- The typed failures of the core: `RuntimeError("VectorDB not initialized")`
raised by `get_collection`, and the chunker constructor's rejection of a bad
chunking configuration. -/
inductive RagError where
  | storeUnavailable
  | configurationError
  deriving DecidableEq

/-- `vector_db.get_collection` (lines 45-48): fail fast when the collection
handle was never initialized. -/
def get_collection (st : Store) : Except RagError Collection :=
  match st with
  | none => .error .storeUnavailable
  | some c => .ok c

/-- `vector_db.initialize_vector_db` (lines 28-42): `get_or_create_collection`
keeps an existing collection and otherwise creates an empty one. -/
def initialize_vector_db (st : Store) : Store :=
  match st with
  | some c => some c
  | none => some []

/-- Overwrite every entry carrying the id of `e` with `e`, leave others alone. -/
def writeId (e x : Entry) : Entry :=
  if x.id == e.id then e else x

/-- Modelled from the spec: the store write is keyed by entry id — "writes or
overwrites entries by id; same id twice replaces the prior entry (no duplicate
accumulation)". The chromadb implementation behind `collection.add` is not part
of this repository. An id already present is overwritten in place; a new id is
appended in insertion order. -/
def upsertOne (c : Collection) (e : Entry) : Collection :=
  if c.any (fun x => x.id == e.id) then c.map (writeId e) else c ++ [e]

/-- Write a batch of entries, first to last. -/
def upsert (c : Collection) (es : List Entry) : Collection :=
  es.foldl upsertOne c

/-- Pair the parallel `ids`/`documents`/`metadatas` lists that
`collection.add` receives into entries. -/
def zipEntries : List String → List String → List Metadata → List Entry
  | i :: is, d :: ds, m :: ms => ⟨i, d, m⟩ :: zipEntries is ds ms
  | _, _, _ => []

/-- `vector_db.add_documents` (lines 62-65): fetch the collection (failing if
uninitialized), embed the documents, and write them keyed by id. -/
def add_documents (documents : List String) (metadatas : List Metadata)
    (ids : List String) (st : Store) : Except RagError Store :=
  match get_collection st with
  | .error e => .error e
  | .ok c => .ok (some (upsert c (zipEntries ids documents metadatas)))

/-- The metadata filter `retrieve_context` builds (rag_engine.py lines 66-70):
always an exact `user_id` condition, optionally `document_id ∈ document_ids`. -/
structure Filter where
  user_id : String
  document_ids : Option (List String)
  deriving DecidableEq

/-- Whether an entry's metadata satisfies the filter conjunction. -/
def Filter.matchesMeta (f : Filter) (m : Metadata) : Bool :=
  m.user_id == f.user_id &&
    (match f.document_ids with
     | none => true
     | some ds => ds.contains m.document_id)

/-- Ranking relation of the store: smaller distance to the query first. The
`dist` parameter abstracts the cosine distance between the embeddings of the
query text and a stored text. -/
def rankLe (dist : String → String → Rat) (q : String) (a b : Entry) : Prop :=
  dist q a.text ≤ dist q b.text

instance (dist : String → String → Rat) (q : String) : DecidableRel (rankLe dist q) :=
  fun a b => inferInstanceAs (Decidable (dist q a.text ≤ dist q b.text))

/-- The entries whose metadata satisfies the filter. -/
def matchedEntries (c : Collection) (flt : Filter) : List Entry :=
  c.filter (fun e => flt.matchesMeta e.metadata)

/-- The matching entries ranked best (smallest distance) first; the sort is
stable, so ties keep insertion order. -/
def rankedEntries (dist : String → String → Rat) (q : String) (c : Collection)
    (flt : Filter) : List Entry :=
  List.insertionSort (rankLe dist q) (matchedEntries c flt)

/-- The first `n_results` ranked matching entries. -/
def topEntries (dist : String → String → Rat) (q : String) (c : Collection)
    (n_results : Nat) (flt : Filter) : List Entry :=
  (rankedEntries dist q c flt).take n_results

/-- What `collection.query` returns with
`include=["documents", "metadatas", "distances"]` (one query embedding, so one
inner list each, modelled flat). -/
structure QueryResult where
  documents : List String
  metadatas : List Metadata
  distances : List Rat
  deriving DecidableEq

/-- Modelled from the spec: `collection.query` — nearest-neighbor search
"restricted to entries whose metadata satisfies filter", ranked by distance
with ties broken by insertion order, returning the top `n_results` with their
documents, metadatas and distances. The chromadb implementation is not part of
this repository. -/
def queryCollection (dist : String → String → Rat) (c : Collection) (q : String)
    (n_results : Nat) (flt : Filter) : QueryResult :=
  { documents := (topEntries dist q c n_results flt).map (fun e => e.text)
    metadatas := (topEntries dist q c n_results flt).map (fun e => e.metadata)
    distances := (topEntries dist q c n_results flt).map (fun e => dist q e.text) }

/-- `vector_db.search_documents` (lines 68-78): fetch the collection (failing
if uninitialized), embed the query, and run the filtered ranked query. -/
def search_documents (dist : String → String → Rat) (query : String)
    (n_results : Nat) (filter_metadata : Filter) (st : Store) :
    Except RagError QueryResult :=
  match get_collection st with
  | .error e => .error e
  | .ok c => .ok (queryCollection dist c query n_results filter_metadata)

/-- `vector_db.delete_documents` (lines 81-83): remove the listed ids; unknown
ids are a no-op, not an error. -/
def delete_documents (ids : List String) (st : Store) : Except RagError Store :=
  match get_collection st with
  | .error e => .error e
  | .ok c => .ok (some (c.filter (fun e => !(ids.contains e.id))))

/-- `vector_db.get_document_count` (lines 86-87): `collection.count()`. -/
def get_document_count (st : Store) : Except RagError Nat :=
  match get_collection st with
  | .error e => .error e
  | .ok c => .ok c.length

/-- The chunking fields of `config.Settings` (config.py lines 42-43); the
settings class performs no validation of these values, any pair of numbers
constructs. -/
structure ChunkConfig where
  chunk_size : Nat
  chunk_overlap : Nat
  deriving DecidableEq

/-- The configured defaults: `chunk_size = 800`, `chunk_overlap = 200`. -/
def defaultChunkConfig : ChunkConfig :=
  { chunk_size := 800, chunk_overlap := 200 }

/-- Modelled from the spec: the `RecursiveCharacterTextSplitter` constructor
called at rag_engine.py lines 22-26 is not part of this repository; per the
spec, "overlap >= chunk_size is a configuration error (reject at
construction)". The splitting algorithm itself is abstracted by the
`split_text` argument; a valid construction yields it unchanged. -/
def mkSplitter (cfg : ChunkConfig) (split_text : String → List String) :
    Except RagError (String → List String) :=
  if cfg.chunk_size ≤ cfg.chunk_overlap then .error .configurationError
  else .ok split_text

/-- The `ids` list built by the `for i, chunk in enumerate(chunks)` loop
(rag_engine.py lines 38-49), starting at index `i`. -/
def chunkIdsFrom (document_id : String) : Nat → List String → List String
  | _, [] => []
  | i, _ :: rest => (document_id ++ "_chunk_" ++ toString i) :: chunkIdsFrom document_id (i + 1) rest

/-- The `metadatas` list built by the same loop, starting at index `i`. -/
def chunkMetadatasFrom (document_id user_id filename file_type : String) :
    Nat → List String → List Metadata
  | _, [] => []
  | i, _ :: rest =>
    { document_id := document_id, user_id := user_id, filename := filename,
      file_type := file_type, chunk_index := i }
      :: chunkMetadatasFrom document_id user_id filename file_type (i + 1) rest

/-- The entries a successful ingestion writes: id `"{document_id}_chunk_{i}"`,
the chunk text, and the five metadata keys, for consecutive indices starting
at `i`. -/
def chunkEntriesFrom (document_id user_id filename file_type : String) :
    Nat → List String → List Entry
  | _, [] => []
  | i, ch :: rest =>
    { id := document_id ++ "_chunk_" ++ toString i, text := ch,
      metadata := { document_id := document_id, user_id := user_id,
                    filename := filename, file_type := file_type,
                    chunk_index := i } }
      :: chunkEntriesFrom document_id user_id filename file_type (i + 1) rest

/-- The body of `ingest_document` after chunking (rag_engine.py lines 30-54):
return 0 on no chunks without touching the store, otherwise build the parallel
documents/metadatas/ids lists and call `add_documents`. -/
def ingestChunks (chunks : List String)
    (document_id user_id filename file_type : String) (st : Store) :
    Except RagError (Store × Nat) :=
  if chunks.isEmpty then .ok (st, 0)
  else
    match add_documents chunks
        (chunkMetadatasFrom document_id user_id filename file_type 0 chunks)
        (chunkIdsFrom document_id 0 chunks) st with
    | .error e => .error e
    | .ok st' => .ok (st', chunks.length)

/-- `rag_engine.ingest_document` (lines 10-54): construct the splitter from the
configured sizes, chunk the text, then run the post-chunking body. Returns the
updated store with the chunk count. -/
def ingest_document (cfg : ChunkConfig) (split_text : String → List String)
    (text document_id user_id filename file_type : String) (st : Store) :
    Except RagError (Store × Nat) :=
  match mkSplitter cfg split_text with
  | .error e => .error e
  | .ok splitter =>
    ingestChunks (splitter text) document_id user_id filename file_type st

/-- One element of the `sources` list `retrieve_context` returns
(rag_engine.py lines 90-95). -/
structure Source where
  content : String
  filename : String
  document_id : String
  score : Rat
  deriving DecidableEq

/-- The `{"contexts": ..., "sources": ...}` dict `retrieve_context` returns. -/
structure RetrieveResult where
  contexts : List String
  sources : List Source
  deriving DecidableEq

/-- The filter dict built at rag_engine.py lines 66-70. `if document_ids:` is
Python truthiness, so `None` and the empty list both leave the filter as the
`user_id` condition alone. -/
def buildFilter (user_id : String) (document_ids : Option (List String)) : Filter :=
  match document_ids with
  | none => { user_id := user_id, document_ids := none }
  | some ds =>
    if ds.isEmpty then { user_id := user_id, document_ids := none }
    else { user_id := user_id, document_ids := some ds }

/-- The result-processing loop of `retrieve_context` (lines 79-95): one source
per returned document in store order, `score = 1 - distance`. -/
def buildSources : List String → List Metadata → List Rat → List Source
  | d :: ds, m :: ms, x :: xs =>
    { content := d, filename := m.filename, document_id := m.document_id,
      score := 1 - x } :: buildSources ds ms xs
  | _, _, _ => []

/-- `rag_engine.retrieve_context` (lines 57-100). -/
def retrieve_context (dist : String → String → Rat) (query user_id : String)
    (top_k : Nat) (document_ids : Option (List String)) (st : Store) :
    Except RagError RetrieveResult :=
  match search_documents dist query top_k (buildFilter user_id document_ids) st with
  | .error e => .error e
  | .ok results =>
    .ok { contexts := results.documents
          sources := buildSources results.documents results.metadatas results.distances }

/-- `rag_engine.delete_document_chunks` (lines 103-114): metadata-only lookup
of the ids of the document's chunks, then delete when the list is nonempty. -/
def delete_document_chunks (document_id : String) (st : Store) :
    Except RagError Store :=
  match get_collection st with
  | .error e => .error e
  | .ok c =>
    let ids := (c.filter (fun e => e.metadata.document_id == document_id)).map (fun e => e.id)
    if ids.isEmpty then .ok st else delete_documents ids st

/-- `rag_engine.get_stats` (lines 117-122): a one-key mapping
`"total_documents" ↦ collection.count()`. -/
def get_stats (st : Store) : Except RagError (List (String × Nat)) :=
  match get_collection st with
  | .error e => .error e
  | .ok c => .ok [("total_documents", c.length)]

/-- Number of index entries whose metadata `document_id` equals the given id. -/
def countDoc (document_id : String) (c : Collection) : Nat :=
  (c.filter (fun e => e.metadata.document_id == document_id)).length

/-- Apply the per-entry overwrites of a batch to a single entry, first write
to last. -/
def wfold (x : Entry) (es : List Entry) : Entry :=
  es.foldl (fun y e => writeId e y) x

/-- The last entry of the batch carrying id `a`, or the default if none does. -/
def lastForD (es : List Entry) (a : String) (d : Entry) : Entry :=
  es.foldl (fun acc e => if a == e.id then e else acc) d

/-- A concrete splitting function for witnesses: one chunk for nonempty input,
none for empty input (the spec's chunker contract on empty input). -/
def splitW : String → List String :=
  fun s => if s.isEmpty then [] else [s]

/-- A concrete splitting function for witnesses that produces two chunks for
nonempty input and none for empty input. -/
def split2W : String → List String :=
  fun s => if s.isEmpty then [] else [s, s ++ "!"]

/-- A concrete distance function for witnesses: distance 0 to the text equal
to the query, 1 otherwise. -/
def distW : String → String → Rat :=
  fun q t => if q == t then 0 else 1

/-- Witness entry of tenant `u1`. -/
def entryW1 : Entry :=
  { id := "d1_chunk_0", text := "alpha",
    metadata := { document_id := "d1", user_id := "u1", filename := "a.txt",
                  file_type := "txt", chunk_index := 0 } }

/-- Witness entry of tenant `u2` whose text matches the witness query exactly
(the closer vector match). -/
def entryW2 : Entry :=
  { id := "d2_chunk_0", text := "q",
    metadata := { document_id := "d2", user_id := "u2", filename := "b.txt",
                  file_type := "txt", chunk_index := 0 } }

/-- Witness collection holding both tenants' entries. -/
def collW : Collection := [entryW1, entryW2]

/-- The retrieval result for the witness query on `collW` as tenant `u1`: only
the `u1` entry is returned, with score one minus its distance. -/
def retrieveW : RetrieveResult :=
  { contexts := ["alpha"]
    sources := [{ content := "alpha", filename := "a.txt", document_id := "d1",
                  score := 1 - distW "q" "alpha" }] }

/-- Overwriting by id never changes the id an entry carries. -/
theorem writeId_id (e x : Entry) : (writeId e x).id = x.id := by
  unfold writeId
  split
  · next h => exact (eq_of_beq h).symm
  · rfl

/-- Folding the per-entry overwrites equals taking the batch's last write for
the entry's id, with the entry itself as the default. -/
theorem wfold_eq (es : List Entry) (x : Entry) : wfold x es = lastForD es x.id x := by
  induction es generalizing x with
  | nil => rfl
  | cons e rest ih =>
    have h1 : wfold x (e :: rest) = wfold (writeId e x) rest := rfl
    have h2 : lastForD (e :: rest) x.id x = lastForD rest x.id (writeId e x) := rfl
    rw [h1, h2, ih (writeId e x), writeId_id]

/-- When some batch entry carries id `a`, the default of `lastForD` is
irrelevant. -/
theorem lastForD_congr (es : List Entry) (a : String) (d d' : Entry)
    (h : ∃ e ∈ es, a = e.id) : lastForD es a d = lastForD es a d' := by
  induction es generalizing d d' with
  | nil =>
    rcases h with ⟨e, he, _⟩
    exact absurd he (List.not_mem_nil e)
  | cons e rest ih =>
    show lastForD rest a (if a == e.id then e else d)
        = lastForD rest a (if a == e.id then e else d')
    by_cases hae : a = e.id
    · rw [if_pos (beq_iff_eq.mpr hae), if_pos (beq_iff_eq.mpr hae)]
    · rw [if_neg (by simp [hae]), if_neg (by simp [hae])]
      apply ih
      rcases h with ⟨e', he', ha'⟩
      rcases List.mem_cons.mp he' with rfl | hmem
      · exact absurd ha' hae
      · exact ⟨e', hmem, ha'⟩

/-- When no batch entry carries id `a`, `lastForD` returns the default. -/
theorem lastForD_of_none (es : List Entry) (a : String) (d : Entry)
    (h : ∀ e ∈ es, a ≠ e.id) : lastForD es a d = d := by
  induction es generalizing d with
  | nil => rfl
  | cons e rest ih =>
    show lastForD rest a (if a == e.id then e else d) = d
    rw [if_neg (by simp [h e (List.mem_cons_self e rest)])]
    exact ih d (fun e' he' => h e' (List.mem_cons_of_mem e he'))

/-- Every element of `upsertOne c e` is an overwritten element of `c` or `e`
itself. -/
theorem mem_upsertOne (c : Collection) (e x : Entry) (hx : x ∈ upsertOne c e) :
    (∃ y ∈ c, x = writeId e y) ∨ x = e := by
  unfold upsertOne at hx
  by_cases hany : c.any (fun y => y.id == e.id) = true
  · rw [if_pos hany] at hx
    rcases List.mem_map.mp hx with ⟨y, hy, hxy⟩
    exact Or.inl ⟨y, hy, hxy.symm⟩
  · rw [if_neg hany] at hx
    rcases List.mem_append.mp hx with hc | he
    · have hne : ¬(x.id == e.id) = true := fun hbeq =>
        hany (List.any_eq_true.mpr ⟨x, hc, hbeq⟩)
      refine Or.inl ⟨x, hc, ?_⟩
      unfold writeId
      rw [if_neg hne]
    · exact Or.inr (List.mem_singleton.mp he)

/-- After `upsertOne c e`, an element carrying the id of `e` is `e`. -/
theorem eq_of_mem_upsertOne_id (c : Collection) (e x : Entry)
    (hx : x ∈ upsertOne c e) (hid : x.id = e.id) : x = e := by
  rcases mem_upsertOne c e x hx with ⟨y, hy, hxy⟩ | rfl
  · by_cases hb : (y.id == e.id) = true
    · rw [hxy]
      unfold writeId
      rw [if_pos hb]
    · exfalso
      apply hb
      have hxyid : x.id = y.id := by rw [hxy]; exact writeId_id e y
      exact beq_iff_eq.mpr (by rw [← hxyid]; exact hid)
  · rfl

/-- An element of `upsertOne c e` with an id different from that of `e` was
already in `c`. -/
theorem mem_of_mem_upsertOne_ne (c : Collection) (e x : Entry)
    (hx : x ∈ upsertOne c e) (hne : x.id ≠ e.id) : x ∈ c := by
  rcases mem_upsertOne c e x hx with ⟨y, hy, hxy⟩ | rfl
  · by_cases hb : (y.id == e.id) = true
    · exact absurd (by rw [hxy]; unfold writeId; rw [if_pos hb]) hne
    · rw [hxy]
      unfold writeId
      rw [if_neg hb]
      exact hy
  · exact absurd rfl hne

/-- An element of `upsert c es` whose id no batch entry carries was already in
`c`. -/
theorem mem_of_mem_upsert_untouched (es : List Entry) :
    ∀ (c : Collection) (x : Entry), x ∈ upsert c es →
      (∀ e ∈ es, x.id ≠ e.id) → x ∈ c := by
  induction es with
  | nil => intro c x hx _; exact hx
  | cons e rest ih =>
    intro c x hx hids
    have hx' : x ∈ upsertOne c e :=
      ih (upsertOne c e) x hx (fun e' he' => hids e' (List.mem_cons_of_mem e he'))
    exact mem_of_mem_upsertOne_ne c e x hx' (hids e (List.mem_cons_self e rest))

/-- `upsertOne` keeps every id that was present. -/
theorem exists_id_upsertOne (c : Collection) (e : Entry) (a : String)
    (h : ∃ x ∈ c, x.id = a) : ∃ x ∈ upsertOne c e, x.id = a := by
  rcases h with ⟨y, hy, hya⟩
  unfold upsertOne
  by_cases hany : c.any (fun x => x.id == e.id) = true
  · rw [if_pos hany]
    exact ⟨writeId e y, List.mem_map_of_mem _ hy, by rw [writeId_id]; exact hya⟩
  · rw [if_neg hany]
    exact ⟨y, List.mem_append_left _ hy, hya⟩

/-- `upsertOne c e` contains an entry carrying the id of `e`. -/
theorem exists_id_upsertOne_self (c : Collection) (e : Entry) :
    ∃ x ∈ upsertOne c e, x.id = e.id := by
  unfold upsertOne
  by_cases hany : c.any (fun x => x.id == e.id) = true
  · rw [if_pos hany]
    rcases List.any_eq_true.mp hany with ⟨y, hy, hye⟩
    exact ⟨writeId e y, List.mem_map_of_mem _ hy, by rw [writeId_id]; exact eq_of_beq hye⟩
  · rw [if_neg hany]
    exact ⟨e, List.mem_append_right _ (List.mem_singleton_self e), rfl⟩

/-- `upsert` keeps every id that was present. -/
theorem exists_id_upsert (es : List Entry) :
    ∀ (c : Collection) (a : String), (∃ x ∈ c, x.id = a) →
      ∃ x ∈ upsert c es, x.id = a := by
  induction es with
  | nil => intro c a h; exact h
  | cons e rest ih =>
    intro c a h
    exact ih (upsertOne c e) a (exists_id_upsertOne c e a h)

/-- After a batch write, every id of the batch is present. -/
theorem exists_id_upsert_of_mem (es : List Entry) :
    ∀ (c : Collection), ∀ e ∈ es, ∃ x ∈ upsert c es, x.id = e.id := by
  induction es with
  | nil => intro c e he; exact absurd he (List.not_mem_nil e)
  | cons e0 rest ih =>
    intro c e he
    rcases List.mem_cons.mp he with rfl | hmem
    · exact exists_id_upsert rest (upsertOne c e) e.id (exists_id_upsertOne_self c e)
    · exact ih (upsertOne c e0) e hmem

/-- When the id of `e` is present, `upsertOne` is a pure overwrite map. -/
theorem upsertOne_of_exists (c : Collection) (e : Entry)
    (h : ∃ x ∈ c, x.id = e.id) : upsertOne c e = c.map (writeId e) := by
  unfold upsertOne
  rcases h with ⟨y, hy, hye⟩
  have hany : (c.any fun x => x.id == e.id) = true :=
    List.any_eq_true.mpr ⟨y, hy, beq_iff_eq.mpr hye⟩
  rw [if_pos hany]

/-- When every batch id is present, the batch write is a pure map of the
folded overwrites. -/
theorem upsert_eq_map (es : List Entry) :
    ∀ (c : Collection), (∀ e ∈ es, ∃ x ∈ c, x.id = e.id) →
      upsert c es = c.map (fun x => wfold x es) := by
  induction es with
  | nil =>
    intro c _
    show c = c.map (fun x => x)
    rw [List.map_id']
  | cons e rest ih =>
    intro c h
    have hpres : ∀ e' ∈ rest, ∃ x ∈ c.map (writeId e), x.id = e'.id := by
      intro e' he'
      rcases h e' (List.mem_cons_of_mem e he') with ⟨x, hx, hxe⟩
      exact ⟨writeId e x, List.mem_map_of_mem _ hx, by rw [writeId_id]; exact hxe⟩
    have h1 : upsert c (e :: rest) = upsert (c.map (writeId e)) rest := by
      show upsert (upsertOne c e) rest = upsert (c.map (writeId e)) rest
      rw [upsertOne_of_exists c e (h e (List.mem_cons_self e rest))]
    rw [h1, ih (c.map (writeId e)) hpres, List.map_map]
    rfl

/-- Every element of a first batch write is a fixpoint of the batch's folded
overwrites. -/
theorem upsert_mem_fixed (es : List Entry) :
    ∀ (c : Collection), ∀ x ∈ upsert c es, lastForD es x.id x = x := by
  induction es with
  | nil => intro c x _; rfl
  | cons e rest ih =>
    intro c x hx
    show lastForD rest x.id (if x.id == e.id then e else x) = x
    by_cases hrest : ∃ e' ∈ rest, x.id = e'.id
    · rw [lastForD_congr rest x.id (if x.id == e.id then e else x) x hrest]
      exact ih (upsertOne c e) x hx
    · push_neg at hrest
      rw [lastForD_of_none rest x.id _ hrest]
      by_cases hb : (x.id == e.id) = true
      · rw [if_pos hb]
        have hxmem : x ∈ upsertOne c e :=
          mem_of_mem_upsert_untouched rest (upsertOne c e) x hx hrest
        exact (eq_of_mem_upsertOne_id c e x hxmem (eq_of_beq hb)).symm
      · rw [if_neg hb]

/-- Mapping a function that fixes every element is the identity. -/
theorem map_eq_self_of (f : Entry → Entry) (l : List Entry)
    (h : ∀ x ∈ l, f x = x) : l.map f = l := by
  induction l with
  | nil => rfl
  | cons a t ih =>
    rw [List.map_cons, h a (List.mem_cons_self a t),
        ih (fun x hx => h x (List.mem_cons_of_mem a hx))]

/-- Writing the same batch twice is the same as writing it once: the second
write overwrites every entry with the value it already has. -/
theorem upsert_idem (c : Collection) (es : List Entry) :
    upsert (upsert c es) es = upsert c es := by
  rw [upsert_eq_map es (upsert c es) (fun e he => exists_id_upsert_of_mem es c e he)]
  apply map_eq_self_of
  intro x hx
  rw [wfold_eq]
  exact upsert_mem_fixed es c x hx

/-- A bad chunking configuration makes `ingest_document` fail at call time
with the constructor's configuration error. -/
theorem ingest_document_invalid (cfg : ChunkConfig) (sp : String → List String)
    (text dId uId fn ft : String) (st : Store)
    (hcfg : cfg.chunk_size ≤ cfg.chunk_overlap) :
    ingest_document cfg sp text dId uId fn ft st = .error .configurationError := by
  unfold ingest_document mkSplitter
  rw [if_pos hcfg]

/-- With a valid chunking configuration, `ingest_document` is the post-chunking
body on the splitter's output. -/
theorem ingest_document_valid (cfg : ChunkConfig) (sp : String → List String)
    (text dId uId fn ft : String) (st : Store)
    (hcfg : cfg.chunk_overlap < cfg.chunk_size) :
    ingest_document cfg sp text dId uId fn ft st =
      ingestChunks (sp text) dId uId fn ft st := by
  unfold ingest_document mkSplitter
  rw [if_neg (Nat.not_le.mpr hcfg)]

/-- Zero chunks: return 0, store untouched. -/
theorem ingestChunks_nil (dId uId fn ft : String) (st : Store) :
    ingestChunks [] dId uId fn ft st = .ok (st, 0) := rfl

/-- At least one chunk and an uninitialized store: fail fast. -/
theorem ingestChunks_cons_none (ch : String) (rest : List String)
    (dId uId fn ft : String) :
    ingestChunks (ch :: rest) dId uId fn ft none = .error .storeUnavailable := rfl

/-- At least one chunk and an initialized store: write the chunk entries. -/
theorem ingestChunks_cons_some (ch : String) (rest : List String)
    (dId uId fn ft : String) (c : Collection) :
    ingestChunks (ch :: rest) dId uId fn ft (some c) =
      .ok (some (upsert c (zipEntries (chunkIdsFrom dId 0 (ch :: rest)) (ch :: rest)
        (chunkMetadatasFrom dId uId fn ft 0 (ch :: rest)))), (ch :: rest).length) := rfl

/-- C2: re-ingesting the same `(document_id, text)` with the same configuration
and splitter is idempotent — the second call returns the same chunk count and
leaves the store exactly as the first call left it, so in particular the number
of index entries of that document is unchanged. -/
theorem ingest_document_idempotent (cfg : ChunkConfig) (sp : String → List String)
    (text dId uId fn ft : String) (st st' : Store) (n : Nat)
    (h : ingest_document cfg sp text dId uId fn ft st = .ok (st', n)) :
    ingest_document cfg sp text dId uId fn ft st' = .ok (st', n) := by
  by_cases hcfg : cfg.chunk_size ≤ cfg.chunk_overlap
  · rw [ingest_document_invalid cfg sp text dId uId fn ft st hcfg] at h
    exact absurd h (by simp)
  · have hlt : cfg.chunk_overlap < cfg.chunk_size := Nat.not_le.mp hcfg
    rw [ingest_document_valid cfg sp text dId uId fn ft st hlt] at h
    rw [ingest_document_valid cfg sp text dId uId fn ft st' hlt]
    cases hch : sp text with
    | nil =>
      rw [hch, ingestChunks_nil] at h
      obtain ⟨hst, hn⟩ : st = st' ∧ 0 = n := by simpa using h
      rw [ingestChunks_nil, ← hn]
    | cons ch rest =>
      rw [hch] at h
      cases st with
      | none =>
        rw [ingestChunks_cons_none] at h
        exact absurd h (by simp)
      | some c =>
        rw [ingestChunks_cons_some] at h
        obtain ⟨hst, hn⟩ :
            some (upsert c (zipEntries (chunkIdsFrom dId 0 (ch :: rest)) (ch :: rest)
              (chunkMetadatasFrom dId uId fn ft 0 (ch :: rest)))) = st'
              ∧ (ch :: rest).length = n := by simpa using h
        rw [← hst, ingestChunks_cons_some, upsert_idem, hn]

/-- C2 witness: a concrete document ingested on top of its own first
ingestion returns the same count and the same store. -/
def ingestedW : Store :=
  some [{ id := "d_chunk_0", text := "x",
          metadata := { document_id := "d", user_id := "u", filename := "f.txt",
                        file_type := "txt", chunk_index := 0 } }]

theorem ingest_document_idempotent_witness :
    ingest_document defaultChunkConfig splitW "x" "d" "u" "f.txt" "txt" ingestedW
      = .ok (ingestedW, 1) :=
  ingest_document_idempotent defaultChunkConfig splitW "x" "d" "u" "f.txt" "txt"
    (some []) ingestedW 1 rfl

/-- C3: when chunking produces no chunks (for example on the empty string),
`ingest_document` returns count 0 and the store is returned untouched — no
write, and not even a store access, happens. -/
theorem ingest_document_empty_noop (cfg : ChunkConfig) (sp : String → List String)
    (text dId uId fn ft : String) (st : Store)
    (hcfg : cfg.chunk_overlap < cfg.chunk_size) (hsp : sp text = []) :
    ingest_document cfg sp text dId uId fn ft st = .ok (st, 0) := by
  rw [ingest_document_valid cfg sp text dId uId fn ft st hcfg, hsp, ingestChunks_nil]

theorem ingest_document_empty_noop_witness :
    ingest_document defaultChunkConfig splitW "" "d" "u" "f.txt" "txt" (some [entryW1])
      = .ok (some [entryW1], 0) :=
  ingest_document_empty_noop defaultChunkConfig splitW "" "d" "u" "f.txt" "txt"
    (some [entryW1]) (by decide) (by decide)

/-- C6 counterexample: the overlap/chunk-size check is not performed at
settings/setup time — a configuration with `overlap = chunk_size` reaches
`ingest_document`, and the configuration error is raised there, at ingestion
call time. -/
theorem config_error_at_call_cex :
    ingest_document { chunk_size := 100, chunk_overlap := 100 } splitW "x" "d" "u"
      "f.txt" "txt" (some []) = .error .configurationError := rfl

/-- C6 amended: a configuration with `overlap >= chunk_size` is rejected by the
chunker's constructor, which the code runs inside each `ingest_document` call,
so the error surfaces at ingestion call time on every input; with the
configured defaults (chunk_size 800, chunk_overlap 200) `ingest_document`
never fails with the configuration error. -/
theorem overlap_config_error_at_ingest :
    (∀ (cfg : ChunkConfig) (sp : String → List String) (text dId uId fn ft : String)
      (st : Store), cfg.chunk_size ≤ cfg.chunk_overlap →
      ingest_document cfg sp text dId uId fn ft st = .error .configurationError) ∧
    (∀ (sp : String → List String) (text dId uId fn ft : String) (st : Store),
      ingest_document defaultChunkConfig sp text dId uId fn ft st
        ≠ .error .configurationError) := by
  constructor
  · intro cfg sp text dId uId fn ft st hcfg
    exact ingest_document_invalid cfg sp text dId uId fn ft st hcfg
  · intro sp text dId uId fn ft st
    rw [ingest_document_valid defaultChunkConfig sp text dId uId fn ft st (by decide)]
    cases hch : sp text with
    | nil => rw [ingestChunks_nil]; simp
    | cons ch rest =>
      cases st with
      | none => rw [ingestChunks_cons_none]; simp
      | some c => rw [ingestChunks_cons_some]; simp

theorem overlap_config_error_at_ingest_witness :
    ingest_document { chunk_size := 50, chunk_overlap := 60 } splitW "x" "d" "u"
        "f.txt" "txt" none = .error .configurationError ∧
    ingest_document defaultChunkConfig splitW "x" "d" "u" "f.txt" "txt" (some [])
        ≠ .error .configurationError :=
  ⟨overlap_config_error_at_ingest.1 { chunk_size := 50, chunk_overlap := 60 }
      splitW "x" "d" "u" "f.txt" "txt" none (by decide),
   overlap_config_error_at_ingest.2 splitW "x" "d" "u" "f.txt" "txt" (some [])⟩

/-- C7 counterexample: with an uninitialized store, ingesting text that chunks
to nothing returns 0 successfully instead of raising the store error. -/
theorem uninit_ingest_empty_ok_cex :
    ingest_document defaultChunkConfig splitW "" "d" "u" "f.txt" "txt" none
      = .ok (none, 0) := rfl

/-- C7 amended: on an uninitialized store, `retrieve_context`,
`delete_document_chunks` and `get_stats` always raise the store-unavailable
error, and `ingest_document` raises it whenever chunking produces at least one
chunk (when it produces none, the call returns 0 without touching the store);
in every case no store state is produced. -/
theorem uninitialized_store_fails :
    (∀ (dist : String → String → Rat) (q U : String) (k : Nat)
      (dids : Option (List String)),
      retrieve_context dist q U k dids none = .error .storeUnavailable) ∧
    (∀ dId : String, delete_document_chunks dId none = .error .storeUnavailable) ∧
    (get_stats none = .error .storeUnavailable) ∧
    (∀ (cfg : ChunkConfig) (sp : String → List String) (text dId uId fn ft : String),
      cfg.chunk_overlap < cfg.chunk_size → sp text ≠ [] →
      ingest_document cfg sp text dId uId fn ft none = .error .storeUnavailable) := by
  refine ⟨fun dist q U k dids => rfl, fun dId => rfl, rfl, ?_⟩
  intro cfg sp text dId uId fn ft hcfg hne
  rw [ingest_document_valid cfg sp text dId uId fn ft none hcfg]
  cases hch : sp text with
  | nil => exact absurd hch hne
  | cons ch rest => rw [ingestChunks_cons_none]

/-- On an initialized store, `retrieve_context` unfolds to the processed
result of the store query under the built filter. -/
theorem retrieve_context_some (dist : String → String → Rat) (q U : String)
    (k : Nat) (dids : Option (List String)) (c : Collection) :
    retrieve_context dist q U k dids (some c) =
      .ok { contexts := (queryCollection dist c q k (buildFilter U dids)).documents
            sources := buildSources
              (queryCollection dist c q k (buildFilter U dids)).documents
              (queryCollection dist c q k (buildFilter U dids)).metadatas
              (queryCollection dist c q k (buildFilter U dids)).distances } := rfl

/-- Processing three parallel projections of one entry list produces one
source per entry, in order. -/
theorem buildSources_maps (ft : Entry → String) (fm : Entry → Metadata)
    (fd : Entry → Rat) (l : List Entry) :
    buildSources (l.map ft) (l.map fm) (l.map fd) =
      l.map (fun e => { content := ft e, filename := (fm e).filename,
                        document_id := (fm e).document_id, score := 1 - fd e }) := by
  induction l with
  | nil => rfl
  | cons e rest ih => simp only [List.map_cons, buildSources, ih]

/-- Every entry the store query returns is in the collection and satisfies the
filter. -/
theorem topEntries_mem (dist : String → String → Rat) (q : String)
    (c : Collection) (k : Nat) (flt : Filter) :
    ∀ e ∈ topEntries dist q c k flt, e ∈ c ∧ flt.matchesMeta e.metadata = true := by
  intro e he
  have h1 : e ∈ rankedEntries dist q c flt := List.take_subset k _ he
  have h2 : e ∈ matchedEntries c flt := (List.mem_insertionSort _).mp h1
  exact List.mem_filter.mp h2

/-- The store query returns `min k` (number of matching entries) results. -/
theorem topEntries_length (dist : String → String → Rat) (q : String)
    (c : Collection) (k : Nat) (flt : Filter) :
    (topEntries dist q c k flt).length = min k (matchedEntries c flt).length := by
  unfold topEntries rankedEntries
  rw [List.length_take, List.length_insertionSort]

/-- The built filter always carries the caller's `user_id`. -/
theorem buildFilter_user_id (U : String) (dids : Option (List String)) :
    (buildFilter U dids).user_id = U := by
  cases dids with
  | none => rfl
  | some ds => by_cases h : ds.isEmpty <;> simp [buildFilter, h]

/-- Metadata satisfying a filter carries the filter's `user_id`. -/
theorem matchesMeta_user (flt : Filter) (m : Metadata)
    (h : flt.matchesMeta m = true) : m.user_id = flt.user_id := by
  unfold Filter.matchesMeta at h
  exact eq_of_beq ((Bool.and_eq_true _ _).mp h).1

/-- C1: tenant isolation of retrieval — every returned source and context
comes from a collection entry whose metadata `user_id` is the caller's, the
`user_id` filter being applied inside the store query before ranking; and when
fewer than `top_k` entries match the filter, fewer results are returned rather
than padding with other entries. -/
theorem retrieve_context_tenant_isolation (dist : String → String → Rat)
    (q U : String) (k : Nat) (dids : Option (List String)) (c : Collection)
    (r : RetrieveResult)
    (h : retrieve_context dist q U k dids (some c) = .ok r) :
    (∀ s ∈ r.sources, ∃ e, e ∈ c ∧ e.metadata.user_id = U ∧
      s.content = e.text ∧ s.document_id = e.metadata.document_id) ∧
    r.sources.length = min k (matchedEntries c (buildFilter U dids)).length ∧
    (∀ t ∈ r.contexts, ∃ e, e ∈ c ∧ e.metadata.user_id = U ∧ t = e.text) := by
  rw [retrieve_context_some] at h
  have hr : r = { contexts := (queryCollection dist c q k (buildFilter U dids)).documents
                  sources := buildSources
                    (queryCollection dist c q k (buildFilter U dids)).documents
                    (queryCollection dist c q k (buildFilter U dids)).metadatas
                    (queryCollection dist c q k (buildFilter U dids)).distances } := by
    injection h with h'
    exact h'.symm
  subst hr
  have hsrc : buildSources
      (queryCollection dist c q k (buildFilter U dids)).documents
      (queryCollection dist c q k (buildFilter U dids)).metadatas
      (queryCollection dist c q k (buildFilter U dids)).distances
      = (topEntries dist q c k (buildFilter U dids)).map
          (fun e => { content := e.text, filename := e.metadata.filename,
                      document_id := e.metadata.document_id,
                      score := 1 - dist q e.text }) :=
    buildSources_maps (fun e => e.text) (fun e => e.metadata)
      (fun e => dist q e.text) (topEntries dist q c k (buildFilter U dids))
  refine ⟨?_, ?_, ?_⟩
  · intro s hs
    replace hs : s ∈ buildSources
        (queryCollection dist c q k (buildFilter U dids)).documents
        (queryCollection dist c q k (buildFilter U dids)).metadatas
        (queryCollection dist c q k (buildFilter U dids)).distances := hs
    rw [hsrc] at hs
    rcases List.mem_map.mp hs with ⟨e, he, hse⟩
    rcases topEntries_mem dist q c k (buildFilter U dids) e he with ⟨hec, hem⟩
    refine ⟨e, hec, ?_, ?_, ?_⟩
    · rw [matchesMeta_user _ _ hem, buildFilter_user_id]
    · rw [← hse]
    · rw [← hse]
  · show (buildSources
        (queryCollection dist c q k (buildFilter U dids)).documents
        (queryCollection dist c q k (buildFilter U dids)).metadatas
        (queryCollection dist c q k (buildFilter U dids)).distances).length = _
    rw [hsrc, List.length_map, topEntries_length]
  · intro t ht
    replace ht : t ∈ (topEntries dist q c k (buildFilter U dids)).map
        (fun e => e.text) := ht
    rcases List.mem_map.mp ht with ⟨e, he, hte⟩
    rcases topEntries_mem dist q c k (buildFilter U dids) e he with ⟨hec, hem⟩
    refine ⟨e, hec, ?_, hte.symm⟩
    rw [matchesMeta_user _ _ hem, buildFilter_user_id]

theorem retrieve_context_tenant_isolation_witness :
    (∀ s ∈ retrieveW.sources, ∃ e, e ∈ collW ∧ e.metadata.user_id = "u1" ∧
      s.content = e.text ∧ s.document_id = e.metadata.document_id) ∧
    retrieveW.sources.length = min 5 (matchedEntries collW (buildFilter "u1" none)).length ∧
    (∀ t ∈ retrieveW.contexts, ∃ e, e ∈ collW ∧ e.metadata.user_id = "u1" ∧
      t = e.text) :=
  retrieve_context_tenant_isolation distW "q" "u1" 5 none collW retrieveW rfl

/-- C8: the score of each returned source is one minus the distance the store
reported for that entry, and the retriever preserves the store's ranking order
in both `contexts` and `sources` — no reordering. -/
theorem retrieve_context_score_order (dist : String → String → Rat)
    (q U : String) (k : Nat) (dids : Option (List String)) (c : Collection)
    (r : RetrieveResult)
    (h : retrieve_context dist q U k dids (some c) = .ok r) :
    r.contexts = (queryCollection dist c q k (buildFilter U dids)).documents ∧
    r.sources.map (fun s => s.content)
      = (queryCollection dist c q k (buildFilter U dids)).documents ∧
    r.sources.map (fun s => s.score)
      = (queryCollection dist c q k (buildFilter U dids)).distances.map
          (fun d => 1 - d) ∧
    r.sources.map (fun s => s.document_id)
      = (queryCollection dist c q k (buildFilter U dids)).metadatas.map
          (fun m => m.document_id) ∧
    r.sources.map (fun s => s.filename)
      = (queryCollection dist c q k (buildFilter U dids)).metadatas.map
          (fun m => m.filename) := by
  rw [retrieve_context_some] at h
  have hr : r = { contexts := (queryCollection dist c q k (buildFilter U dids)).documents
                  sources := buildSources
                    (queryCollection dist c q k (buildFilter U dids)).documents
                    (queryCollection dist c q k (buildFilter U dids)).metadatas
                    (queryCollection dist c q k (buildFilter U dids)).distances } := by
    injection h with h'
    exact h'.symm
  subst hr
  have hsrc : buildSources
      (queryCollection dist c q k (buildFilter U dids)).documents
      (queryCollection dist c q k (buildFilter U dids)).metadatas
      (queryCollection dist c q k (buildFilter U dids)).distances
      = (topEntries dist q c k (buildFilter U dids)).map
          (fun e => { content := e.text, filename := e.metadata.filename,
                      document_id := e.metadata.document_id,
                      score := 1 - dist q e.text }) :=
    buildSources_maps (fun e => e.text) (fun e => e.metadata)
      (fun e => dist q e.text) (topEntries dist q c k (buildFilter U dids))
  refine ⟨rfl, ?_, ?_, ?_, ?_⟩
  · show (buildSources
        (queryCollection dist c q k (buildFilter U dids)).documents
        (queryCollection dist c q k (buildFilter U dids)).metadatas
        (queryCollection dist c q k (buildFilter U dids)).distances).map
          (fun s => s.content) = _
    rw [hsrc, List.map_map]
    rfl
  · show (buildSources
        (queryCollection dist c q k (buildFilter U dids)).documents
        (queryCollection dist c q k (buildFilter U dids)).metadatas
        (queryCollection dist c q k (buildFilter U dids)).distances).map
          (fun s => s.score) = _
    rw [hsrc, List.map_map]
    show _ = ((topEntries dist q c k (buildFilter U dids)).map
        (fun e => dist q e.text)).map (fun d => 1 - d)
    rw [List.map_map]
    rfl
  · show (buildSources
        (queryCollection dist c q k (buildFilter U dids)).documents
        (queryCollection dist c q k (buildFilter U dids)).metadatas
        (queryCollection dist c q k (buildFilter U dids)).distances).map
          (fun s => s.document_id) = _
    rw [hsrc, List.map_map]
    show _ = ((topEntries dist q c k (buildFilter U dids)).map
        (fun e => e.metadata)).map (fun m => m.document_id)
    rw [List.map_map]
    rfl
  · show (buildSources
        (queryCollection dist c q k (buildFilter U dids)).documents
        (queryCollection dist c q k (buildFilter U dids)).metadatas
        (queryCollection dist c q k (buildFilter U dids)).distances).map
          (fun s => s.filename) = _
    rw [hsrc, List.map_map]
    show _ = ((topEntries dist q c k (buildFilter U dids)).map
        (fun e => e.metadata)).map (fun m => m.filename)
    rw [List.map_map]
    rfl

theorem retrieve_context_score_order_witness :
    retrieveW.contexts = (queryCollection distW collW "q" 5 (buildFilter "u1" none)).documents ∧
    retrieveW.sources.map (fun s => s.content)
      = (queryCollection distW collW "q" 5 (buildFilter "u1" none)).documents ∧
    retrieveW.sources.map (fun s => s.score)
      = (queryCollection distW collW "q" 5 (buildFilter "u1" none)).distances.map
          (fun d => 1 - d) ∧
    retrieveW.sources.map (fun s => s.document_id)
      = (queryCollection distW collW "q" 5 (buildFilter "u1" none)).metadatas.map
          (fun m => m.document_id) ∧
    retrieveW.sources.map (fun s => s.filename)
      = (queryCollection distW collW "q" 5 (buildFilter "u1" none)).metadatas.map
          (fun m => m.filename) :=
  retrieve_context_score_order distW "q" "u1" 5 none collW retrieveW rfl

/-- C10: an empty (but non-None) `document_ids` list is falsy in Python, so the
filter keeps only the `user_id` condition — exactly as when `document_ids` is
None — and the whole retrieval call behaves identically. -/
theorem empty_document_ids_no_restriction :
    (∀ U : String, buildFilter U (some []) = buildFilter U none) ∧
    (∀ (dist : String → String → Rat) (q U : String) (k : Nat) (st : Store),
      retrieve_context dist q U k (some []) st = retrieve_context dist q U k none st) := by
  constructor
  · intro U
    rfl
  · intro dist q U k st
    cases st with
    | none => rfl
    | some c => rfl

theorem uninitialized_store_fails_witness :
    retrieve_context distW "q" "u1" 5 none none = .error .storeUnavailable ∧
    delete_document_chunks "d" none = .error .storeUnavailable ∧
    get_stats none = .error .storeUnavailable ∧
    ingest_document defaultChunkConfig splitW "x" "d" "u" "f.txt" "txt" none
      = .error .storeUnavailable :=
  ⟨uninitialized_store_fails.1 distW "q" "u1" 5 none,
   uninitialized_store_fails.2.1 "d",
   uninitialized_store_fails.2.2.1,
   uninitialized_store_fails.2.2.2 defaultChunkConfig splitW "x" "d" "u" "f.txt"
     "txt" (by decide) (by decide)⟩

/-- The parallel ids/documents/metadatas lists the ingestion loop builds zip
into exactly the chunk entries. -/
theorem zipEntries_chunkLists (dId uId fn ft : String) :
    ∀ (chunks : List String) (i : Nat),
      zipEntries (chunkIdsFrom dId i chunks) chunks
        (chunkMetadatasFrom dId uId fn ft i chunks)
        = chunkEntriesFrom dId uId fn ft i chunks := by
  intro chunks
  induction chunks with
  | nil => intro i; rfl
  | cons ch rest ih =>
    intro i
    simp only [chunkIdsFrom, chunkMetadatasFrom, zipEntries, chunkEntriesFrom, ih (i + 1)]

/-- Positional characterization of the chunk entries: the entry at position
`i` (counting from base index `j`) holds chunk `i`, id suffix `j + i` and
chunk index `j + i`. -/
theorem chunkEntriesFrom_get (dId uId fn ft : String) :
    ∀ (chunks : List String) (j i : Nat),
      (chunkEntriesFrom dId uId fn ft j chunks).get? i
        = (chunks.get? i).map (fun ch =>
            { id := dId ++ "_chunk_" ++ toString (j + i), text := ch,
              metadata := { document_id := dId, user_id := uId, filename := fn,
                            file_type := ft, chunk_index := j + i } }) := by
  intro chunks
  induction chunks with
  | nil => intro j i; rfl
  | cons ch rest ih =>
    intro j i
    cases i with
    | zero => rfl
    | succ i' =>
      show (chunkEntriesFrom dId uId fn ft (j + 1) rest).get? i'
          = (rest.get? i').map (fun ch =>
              { id := dId ++ "_chunk_" ++ toString (j + (i' + 1)), text := ch,
                metadata := { document_id := dId, user_id := uId, filename := fn,
                              file_type := ft, chunk_index := j + (i' + 1) } })
      rw [ih (j + 1) i']
      have hadd : j + 1 + i' = j + (i' + 1) := by omega
      rw [hadd]

/-- The chunk indices written from base `j` are `j, j+1, ...` in order. -/
theorem chunkEntriesFrom_indices (dId uId fn ft : String) :
    ∀ (chunks : List String) (j : Nat),
      (chunkEntriesFrom dId uId fn ft j chunks).map (fun e => e.metadata.chunk_index)
        = (List.range chunks.length).map (fun i => i + j) := by
  intro chunks
  induction chunks with
  | nil => intro j; rfl
  | cons ch rest ih =>
    intro j
    show j :: (chunkEntriesFrom dId uId fn ft (j + 1) rest).map
        (fun e => e.metadata.chunk_index)
        = (List.range (rest.length + 1)).map (fun i => i + j)
    rw [ih (j + 1), List.range_succ_eq_map, List.map_cons, List.map_map]
    have hf : (fun i : Nat => i + (j + 1)) = ((fun i : Nat => i + j) ∘ Nat.succ) :=
      funext (fun i => by show i + (j + 1) = Nat.succ i + j; omega)
    rw [hf]
    congr 1
    omega

/-- Started at base index 0, the chunk indices are exactly `0 .. n-1`. -/
theorem chunkEntriesFrom_indices_zero (dId uId fn ft : String)
    (chunks : List String) :
    (chunkEntriesFrom dId uId fn ft 0 chunks).map (fun e => e.metadata.chunk_index)
      = List.range chunks.length := by
  rw [chunkEntriesFrom_indices]
  have hf : (fun i : Nat => i + 0) = fun i : Nat => i :=
    funext (fun i => Nat.add_zero i)
  rw [hf, List.map_id']

/-- C4: a successful ingestion writes exactly the chunk entries — position `i`
gets id `"{document_id}_chunk_{i}"`, the chunk text, and metadata holding
exactly the call's document_id, user_id, filename, file_type and chunk index
`i` — and the written chunk indices form the contiguous 0-based range. -/
theorem ingest_document_chunk_layout (cfg : ChunkConfig)
    (sp : String → List String) (text dId uId fn ft : String) (c : Collection)
    (hcfg : cfg.chunk_overlap < cfg.chunk_size) (hne : sp text ≠ []) :
    ingest_document cfg sp text dId uId fn ft (some c)
      = .ok (some (upsert c (chunkEntriesFrom dId uId fn ft 0 (sp text))),
        (sp text).length) ∧
    (∀ (i : Nat) (ch : String), (sp text).get? i = some ch →
      (chunkEntriesFrom dId uId fn ft 0 (sp text)).get? i
        = some { id := dId ++ "_chunk_" ++ toString i, text := ch,
                 metadata := { document_id := dId, user_id := uId, filename := fn,
                               file_type := ft, chunk_index := i } }) ∧
    (chunkEntriesFrom dId uId fn ft 0 (sp text)).map
        (fun e => e.metadata.chunk_index)
      = List.range (sp text).length := by
  refine ⟨?_, ?_, chunkEntriesFrom_indices_zero dId uId fn ft (sp text)⟩
  · rw [ingest_document_valid cfg sp text dId uId fn ft (some c) hcfg]
    cases hch : sp text with
    | nil => exact absurd hch hne
    | cons ch rest => rw [ingestChunks_cons_some, zipEntries_chunkLists]
  · intro i ch hich
    rw [chunkEntriesFrom_get dId uId fn ft (sp text) 0 i, hich, Nat.zero_add]
    rfl

theorem ingest_document_chunk_layout_witness :
    ingest_document defaultChunkConfig split2W "x" "d" "u" "f.txt" "txt" (some [])
      = .ok (some (upsert [] (chunkEntriesFrom "d" "u" "f.txt" "txt" 0 ["x", "x!"])), 2) ∧
    (chunkEntriesFrom "d" "u" "f.txt" "txt" 0 ["x", "x!"]).get? 1
      = some { id := "d" ++ "_chunk_" ++ toString 1, text := "x!",
               metadata := { document_id := "d", user_id := "u", filename := "f.txt",
                             file_type := "txt", chunk_index := 1 } } ∧
    (chunkEntriesFrom "d" "u" "f.txt" "txt" 0 ["x", "x!"]).map
        (fun e => e.metadata.chunk_index) = List.range 2 :=
  ⟨(ingest_document_chunk_layout defaultChunkConfig split2W "x" "d" "u" "f.txt"
      "txt" [] (by decide) (by decide)).1,
   (ingest_document_chunk_layout defaultChunkConfig split2W "x" "d" "u" "f.txt"
      "txt" [] (by decide) (by decide)).2.1 1 "x!" rfl,
   (ingest_document_chunk_layout defaultChunkConfig split2W "x" "d" "u" "f.txt"
      "txt" [] (by decide) (by decide)).2.2⟩

/-- C5: `delete_document_chunks` removes every entry of the document — the
count of entries carrying the document id is 0 afterwards — and succeeds as a
no-op when the document has no chunks. -/
theorem delete_document_chunks_complete (dId : String) (c : Collection) :
    ∃ c', delete_document_chunks dId (some c) = .ok (some c') ∧
      countDoc dId c' = 0 ∧ (countDoc dId c = 0 → c' = c) := by
  have hunf : delete_document_chunks dId (some c)
      = (if ((c.filter (fun e => e.metadata.document_id == dId)).map
            (fun e => e.id)).isEmpty
         then Except.ok (some c)
         else delete_documents ((c.filter (fun e => e.metadata.document_id == dId)).map
            (fun e => e.id)) (some c)) := rfl
  by_cases hids : ((c.filter (fun e => e.metadata.document_id == dId)).map
      (fun e => e.id)).isEmpty
  · have hfil : c.filter (fun e => e.metadata.document_id == dId) = [] :=
      List.map_eq_nil_iff.mp (List.isEmpty_iff.mp hids)
    refine ⟨c, ?_, ?_, fun _ => rfl⟩
    · rw [hunf, if_pos hids]
    · unfold countDoc
      rw [hfil]
      rfl
  · refine ⟨c.filter (fun x => !(((c.filter (fun e => e.metadata.document_id == dId)).map
      (fun e => e.id)).contains x.id)), ?_, ?_, ?_⟩
    · rw [hunf, if_neg hids]
      rfl
    · unfold countDoc
      have hnil : (c.filter (fun x => !(((c.filter (fun e => e.metadata.document_id == dId)).map
          (fun e => e.id)).contains x.id))).filter
            (fun e => e.metadata.document_id == dId) = [] := by
        rw [List.filter_eq_nil_iff]
        intro x hx hdoc
        rcases List.mem_filter.mp hx with ⟨hxc, hnc⟩
        have hmem : x.id ∈ (c.filter (fun e => e.metadata.document_id == dId)).map
            (fun e => e.id) :=
          List.mem_map_of_mem (fun e => e.id) (List.mem_filter.mpr ⟨hxc, hdoc⟩)
        have hcont : ((c.filter (fun e => e.metadata.document_id == dId)).map
            (fun e => e.id)).contains x.id = true := List.elem_iff.mpr hmem
        rw [hcont] at hnc
        exact absurd hnc (by decide)
      rw [hnil]
      rfl
    · intro h0
      exfalso
      apply hids
      have hfil : c.filter (fun e => e.metadata.document_id == dId) = [] :=
        List.length_eq_zero.mp h0
      rw [hfil]
      rfl

theorem delete_document_chunks_complete_witness :
    ∃ c', delete_document_chunks "d1" (some collW) = .ok (some c') ∧
      countDoc "d1" c' = 0 ∧ (countDoc "d1" collW = 0 → c' = collW) :=
  delete_document_chunks_complete "d1" collW

/-- C9 counterexample: the only key of the stats mapping is
"total_documents"; there is no "total_entries" key. -/
theorem get_stats_key_cex :
    ∃ m, get_stats (some [entryW1]) = .ok m ∧
      m.map (fun p => p.fst) = ["total_documents"] ∧
      ¬ ("total_entries" ∈ m.map (fun p => p.fst)) :=
  ⟨[("total_documents", 1)], rfl, rfl, by decide⟩

/-- C9 amended: `get_stats` returns the one-key mapping "total_documents"
holding the unfiltered total number of entries of the collection, agreeing
with `get_document_count` on every store state. -/
theorem get_stats_total_documents :
    (∀ c : Collection, get_stats (some c) = .ok [("total_documents", c.length)]) ∧
    (∀ st : Store, get_stats st
      = (get_document_count st).map (fun n => [("total_documents", n)])) := by
  constructor
  · intro c
    rfl
  · intro st
    cases st with
    | none => rfl
    | some c => rfl

end Rag
